import Mathlib

/-!
Verification of the `AsyncWriterSource` engine
(`src/service/async_writer_source.h`): a buffered, callback-driven
asynchronous writer over a readiness-notified descriptor, with a bounded
cross-thread message queue, a partial-write resumption cursor, and a
disconnect/write-result/data-received/exception callback contract.

The header under `src/` declares the interface (callback types, the three
`write` overloads, `canSendMessages`, `requestClose`, the counters and the
private state fields `fd_`, `closing_`, `writeReady_`, `threadBuffer_`,
`remainingMsgs_`, `currentLine_`, `currentSent_`, `bytesSent_`,
`bytesReceived_`, `msgsSent_`); the implementation file of the member
functions is not part of the sources, so the operational behaviour below is
modelled from the specification's component design (§4.3 Message Queue &
Write State Machine, §4.4 Read Path, §4.5 Disconnection Reporter) over the
state fields declared in the header.
-/

namespace AsyncWriterSource

/-- A byte payload (the `std::string` message bodies). -/
abbrev Payload := List Nat

/-- Outcome of a `write` call: `accepted` models a `true` return,
`capacityError` a `false` return (queue full), and `configError` the
throwing path ("provided the file descriptor is open or being opened,
or throws"). -/
inductive WriteOutcome
  | accepted
  | capacityError
  | configError
deriving DecidableEq, Repr

/-- A callback invocation observable by the engine's user: the
`onWriteResult`, `onDisconnected` and `onReceivedData` channels declared in
the header. -/
inductive Event
  | writeResult (error : Int) (written : Payload) (writtenSize : Nat)
  | disconnected (fromPeer : Bool) (undelivered : List Payload)
  | dataReceived (data : Payload)
deriving DecidableEq, Repr

/-- Result of one non-blocking send attempt on the descriptor, supplied by
the environment (the OS). -/
inductive SendResult
  | wouldBlock
  | sent (n : Nat)
  | sendError (code : Int)
deriving DecidableEq, Repr

/-- Result of one non-blocking read attempt on the descriptor. A read
yielding 0 bytes is the end-of-stream condition `endOfStream`. -/
inductive ReadResult
  | readData (bytes : Payload)
  | endOfStream
  | readWouldBlock
deriving DecidableEq, Repr

/-- Modelled from the spec: the engine state over the fields declared in the
header — descriptor handle (`fd_`, abstracted to whether it is set), the
monotonic `closing_` flag, last-known writability `writeReady_`, the bounded
queue `threadBuffer_`, the atomic pending count `remainingMsgs_`, the
in-flight cursor (`currentLine_`/`currentSent_`), and the three counters. -/
structure State where
  fdSet : Bool
  closing : Bool
  writeReady : Bool
  queue : List Payload
  remainingMsgs : Nat
  cursor : Option (Payload × Nat)
  bytesSent : Nat
  bytesReceived : Nat
  msgsSent : Nat
  maxMessages : Nat
deriving DecidableEq, Repr

/-- Modelled from the spec: `canSendMessages()` is true iff the descriptor
is set and `closing` is false (missing member-function body). -/
def canSendMessages (s : State) : Bool :=
  s.fdSet && !s.closing

/-- Modelled from the spec: `write` (missing member-function body; all three
overloads enqueue the same bytes). It fails with a configuration error
(throws) unless the descriptor is open and not closing, fails with a
capacity error if the queue is at `maxMessages`, and otherwise moves the
payload in and increments the pending count. -/
def write (s : State) (p : Payload) : WriteOutcome × State :=
  if ¬ canSendMessages s then (.configError, s)
  else if s.maxMessages ≤ s.queue.length then (.capacityError, s)
  else (.accepted,
        { s with queue := s.queue ++ [p], remainingMsgs := s.remainingMsgs + 1 })

/-- The payloads not yet resolved: the in-flight cursor payload (if any)
followed by the still-pending queue contents, in transmission order. -/
def pendingPayloads (s : State) : List Payload :=
  (match s.cursor with
   | some (m, _) => [m]
   | none => []) ++ s.queue

/-- Modelled from the spec: `handleDisconnection` (missing member-function
body). Idempotent: if the descriptor is still set, it closes it, collects
the pending payloads into the undelivered list and fires the disconnect
callback exactly once; otherwise it does nothing. -/
def handleDisconnection (s : State) (fromPeer : Bool) : State × List Event :=
  if s.fdSet then
    ({ s with fdSet := false, cursor := none, queue := [], remainingMsgs := 0 },
     [.disconnected fromPeer (pendingPayloads s)])
  else (s, [])

/-- Modelled from the spec: `requestClose` (missing member-function body).
Sets `closing` to true idempotently; if queue and cursor are already empty
it closes the descriptor and fires disconnect immediately with
`fromPeer = false`; otherwise shutdown is deferred to the drain loop. -/
def requestClose (s : State) : State × List Event :=
  let s1 := { s with closing := true }
  if s.queue.isEmpty && s.cursor.isNone then handleDisconnection s1 false
  else (s1, [])

/-- Modelled from the spec: the drain/flush loop of `flush` /
`handleWriteReady` (missing member-function bodies). With no cursor it
dequeues the next pending message; a complete cursor fires a successful
write result and bumps the counters; otherwise it attempts a non-blocking
send whose outcome the oracle supplies: would-block clears `writeReady` and
stops, a partial send advances the cursor offset, and an unrecoverable
error fires a failed write result and triggers disconnection. When queue
and cursor are both empty and `closing` is set it closes and disconnects. -/
def flushLoop : Nat → State → List SendResult → State × List Event
  | 0, s, _ => (s, [])
  | fuel + 1, s, oracle =>
    match s.cursor with
    | none =>
      match s.queue with
      | [] =>
        if s.closing then handleDisconnection s false
        else (s, [])
      | m :: rest =>
        flushLoop fuel
          { s with cursor := some (m, 0), queue := rest,
                   remainingMsgs := s.remainingMsgs - 1 } oracle
    | some (m, off) =>
      if m.length ≤ off then
        let r := flushLoop fuel
          { s with cursor := none, bytesSent := s.bytesSent + m.length,
                   msgsSent := s.msgsSent + 1 } oracle
        (r.1, Event.writeResult 0 m m.length :: r.2)
      else
        match oracle with
        | [] => ({ s with writeReady := false }, [])
        | .wouldBlock :: _ => ({ s with writeReady := false }, [])
        | .sent n :: rest =>
          flushLoop fuel { s with cursor := some (m, min (off + n) m.length) } rest
        | .sendError code :: _ =>
          let r := handleDisconnection { s with cursor := none } false
          (r.1, Event.writeResult code m off :: r.2)

/-- Fuel sufficient for the drain loop to run to quiescence: each oracle
entry is consumed at most once, each queue element is dequeued and completed
at most once, plus the final close step. -/
def flushFuel (s : State) (oracle : List SendResult) : Nat :=
  oracle.length + 2 * s.queue.length + 4

/-- Modelled from the spec: `handleWriteReady` (missing member-function
body). On writable readiness, records writability and runs the drain
loop. -/
def handleWriteReady (s : State) (oracle : List SendResult) : State × List Event :=
  if s.fdSet then
    flushLoop (flushFuel s oracle) { s with writeReady := true } oracle
  else (s, [])

/-- Modelled from the spec: the read loop of `handleReadReady` (missing
member-function body). Each successful read forwards the bytes to the
data-received callback and bumps `bytesReceived`; a read yielding 0 bytes
triggers the disconnection sequence with `fromPeer = true` and stops;
would-block stops. -/
def readLoop : State → List ReadResult → State × List Event
  | s, [] => (s, [])
  | s, .readData b :: rest =>
    let r := readLoop { s with bytesReceived := s.bytesReceived + b.length } rest
    (r.1, Event.dataReceived b :: r.2)
  | s, .endOfStream :: _ => handleDisconnection s true
  | s, .readWouldBlock :: _ => (s, [])

/-- Modelled from the spec: `handleReadReady` (missing member-function
body), guarded on the descriptor being set. -/
def handleReadReady (s : State) (reads : List ReadResult) : State × List Event :=
  if s.fdSet then readLoop s reads else (s, [])

/-- Modelled from the spec: `handleWakeupEvent` (missing member-function
body). The consumer thread drains the wakeup signal and attempts a queue
drain, which can only send if the descriptor is known writable. -/
def handleWakeup (s : State) (oracle : List SendResult) : State × List Event :=
  if s.fdSet && s.writeReady then
    flushLoop (flushFuel s oracle) s oracle
  else (s, [])

/-- One externally-triggered operation on the engine: a producer `write`, a
`requestClose`, or a dispatched readiness event (writable, readable, or
wakeup) with the environment's send/read outcomes. -/
inductive Action
  | write (p : Payload)
  | requestClose
  | writableReady (oracle : List SendResult)
  | readableReady (reads : List ReadResult)
  | wakeup (oracle : List SendResult)
deriving DecidableEq, Repr

/-- One step of the engine: the new state, the callback events fired, and
the payloads accepted (enqueued) by this step. -/
def step (s : State) (a : Action) : State × List Event × List Payload :=
  match a with
  | .write p =>
    let r := write s p
    (r.2, [], if r.1 = .accepted then [p] else [])
  | .requestClose =>
    let r := requestClose s
    (r.1, r.2, [])
  | .writableReady oracle =>
    let r := handleWriteReady s oracle
    (r.1, r.2, [])
  | .readableReady reads =>
    let r := handleReadReady s reads
    (r.1, r.2, [])
  | .wakeup oracle =>
    let r := handleWakeup s oracle
    (r.1, r.2, [])

/-- Run a script of operations, accumulating fired events and accepted
payloads in order. -/
def run (s : State) : List Action → State × List Event × List Payload
  | [] => (s, [], [])
  | a :: rest =>
    let r := step s a
    let r2 := run r.1 rest
    (r2.1, r.2.1 ++ r2.2.1, r.2.2 ++ r2.2.2)

/-- A fresh engine instance right after the descriptor has been set:
nothing pending, nothing sent, not closing. -/
def initialState (maxMessages : Nat) : State :=
  { fdSet := true, closing := false, writeReady := false, queue := [],
    remainingMsgs := 0, cursor := none, bytesSent := 0, bytesReceived := 0,
    msgsSent := 0, maxMessages := maxMessages }

/-- The payloads an event list resolves: each write result resolves its
written payload, each disconnect resolves its undelivered list. -/
def resolved (evs : List Event) : List Payload :=
  evs.foldr
    (fun e acc =>
      match e with
      | .writeResult _ w _ => w :: acc
      | .disconnected _ undelivered => undelivered ++ acc
      | .dataReceived _ => acc) []

/-- Number of disconnect callback invocations in an event list. -/
def countDisconnects (evs : List Event) : Nat :=
  evs.countP (fun e => match e with | .disconnected _ _ => true | _ => false)

/-- Whether an event is a data-received callback. -/
def isDataReceived : Event → Bool
  | .dataReceived _ => true
  | _ => false

/-- Whether an event list contains a disconnect callback. -/
def hasDisconnect (evs : List Event) : Bool :=
  evs.any (fun e => match e with | .disconnected _ _ => true | _ => false)

/-- A disconnect callback, when present, is the last event fired. -/
def noEventAfterDisconnect : List Event → Bool
  | [] => true
  | .disconnected _ _ :: rest => rest.isEmpty
  | _ :: rest => noEventAfterDisconnect rest

/-- The payloads reported successfully sent (write results with error 0),
in report order. -/
def sentMsgs (evs : List Event) : List Payload :=
  evs.foldr
    (fun e acc =>
      match e with
      | .writeResult c w _ => if c = 0 then w :: acc else acc
      | _ => acc) []

/-- An environment send oracle is well formed when every reported send
error carries a nonzero error code, as an OS `errno` does. -/
def oracleOk (l : List SendResult) : Bool :=
  l.all fun r =>
    match r with
    | .sendError c => !(c == 0)
    | _ => true

/-- An action is well formed when its send oracle (if any) is. -/
def actionOk (a : Action) : Bool :=
  match a with
  | .writableReady o => oracleOk o
  | .wakeup o => oracleOk o
  | _ => true

/-- A script is well formed when every readiness event's send oracle is. -/
def scriptOk (l : List Action) : Bool :=
  l.all actionOk

/-! ### Helper lemmas on event lists -/

theorem resolved_nil : resolved [] = [] := rfl

theorem resolved_cons (e : Event) (evs : List Event) :
    resolved (e :: evs)
      = (match e with
         | .writeResult _ w _ => [w]
         | .disconnected _ undelivered => undelivered
         | .dataReceived _ => []) ++ resolved evs := by
  cases e <;> simp [resolved]

theorem resolved_append (l₁ l₂ : List Event) :
    resolved (l₁ ++ l₂) = resolved l₁ ++ resolved l₂ := by
  induction l₁ with
  | nil => simp [resolved]
  | cons e rest ih =>
    simp only [List.cons_append, resolved_cons, ih, List.append_assoc]

theorem countDisconnects_append (l₁ l₂ : List Event) :
    countDisconnects (l₁ ++ l₂) = countDisconnects l₁ + countDisconnects l₂ :=
  List.countP_append _ _ _

theorem hasDisconnect_append (l₁ l₂ : List Event) :
    hasDisconnect (l₁ ++ l₂) = (hasDisconnect l₁ || hasDisconnect l₂) :=
  List.any_append

theorem hasDisconnect_eq_false_iff (l : List Event) :
    hasDisconnect l = false ↔ countDisconnects l = 0 := by
  induction l with
  | nil => simp [hasDisconnect, countDisconnects]
  | cons e rest ih =>
    cases e <;>
      simp [hasDisconnect, countDisconnects, List.countP_cons] at ih ⊢

theorem noEventAfterDisconnect_countD (l : List Event)
    (h : noEventAfterDisconnect l = true) : countDisconnects l ≤ 1 := by
  induction l with
  | nil => simp [countDisconnects]
  | cons e rest ih =>
    cases e with
    | disconnected fp u =>
      simp only [noEventAfterDisconnect, List.isEmpty_iff] at h
      subst h
      simp [countDisconnects, List.countP_cons]
    | writeResult c w n =>
      simp only [noEventAfterDisconnect] at h
      simpa [countDisconnects, List.countP_cons] using ih h
    | dataReceived d =>
      simp only [noEventAfterDisconnect] at h
      simpa [countDisconnects, List.countP_cons] using ih h

theorem noEventAfterDisconnect_append (l₁ l₂ : List Event)
    (h₁ : noEventAfterDisconnect l₁ = true)
    (h₂ : noEventAfterDisconnect l₂ = true)
    (h₃ : hasDisconnect l₁ = true → l₂ = []) :
    noEventAfterDisconnect (l₁ ++ l₂) = true := by
  induction l₁ with
  | nil => simpa using h₂
  | cons e rest ih =>
    cases e with
    | disconnected fp u =>
      have hl₂ : l₂ = [] := h₃ (by simp [hasDisconnect])
      simp only [noEventAfterDisconnect, List.isEmpty_iff] at h₁
      subst h₁ hl₂
      simp [noEventAfterDisconnect]
    | writeResult c w n =>
      simp only [noEventAfterDisconnect] at h₁ ⊢
      exact ih h₁ (fun hd => h₃ (by simp [hasDisconnect] at hd ⊢; exact hd))
    | dataReceived d =>
      simp only [noEventAfterDisconnect] at h₁ ⊢
      exact ih h₁ (fun hd => h₃ (by simp [hasDisconnect] at hd ⊢; exact hd))

theorem noEventAfterDisconnect_split (l₁ : List Event) (fp : Bool)
    (u : List Payload) (l₂ : List Event)
    (h : noEventAfterDisconnect (l₁ ++ Event.disconnected fp u :: l₂) = true) :
    l₂ = [] := by
  induction l₁ with
  | nil =>
    simpa [noEventAfterDisconnect, List.isEmpty_iff] using h
  | cons e rest ih =>
    cases e with
    | disconnected fp' u' =>
      simp only [List.cons_append, noEventAfterDisconnect, List.isEmpty_iff] at h
      exact absurd h (by simp)
    | writeResult c w n =>
      simp only [List.cons_append, noEventAfterDisconnect] at h
      exact ih h
    | dataReceived d =>
      simp only [List.cons_append, noEventAfterDisconnect] at h
      exact ih h

theorem sentMsgs_nil : sentMsgs [] = [] := rfl

theorem sentMsgs_cons (e : Event) (evs : List Event) :
    sentMsgs (e :: evs)
      = (match e with
         | .writeResult c w _ => if c = 0 then [w] else []
         | _ => []) ++ sentMsgs evs := by
  cases e with
  | writeResult c w n =>
    by_cases hc : c = 0 <;> simp [sentMsgs, hc]
  | disconnected fp u => simp [sentMsgs]
  | dataReceived d => simp [sentMsgs]

theorem sentMsgs_append (l₁ l₂ : List Event) :
    sentMsgs (l₁ ++ l₂) = sentMsgs l₁ ++ sentMsgs l₂ := by
  induction l₁ with
  | nil => simp [sentMsgs]
  | cons e rest ih =>
    simp only [List.cons_append, sentMsgs_cons, ih, List.append_assoc]

/-! ### Disconnection handler -/

theorem handleDisconnection_of_fdSet (s : State) (fp : Bool)
    (h : s.fdSet = true) :
    handleDisconnection s fp
      = ({ s with fdSet := false, cursor := none, queue := [],
                  remainingMsgs := 0 },
         [Event.disconnected fp (pendingPayloads s)]) := by
  simp [handleDisconnection, h]

theorem handleDisconnection_of_not_fdSet (s : State) (fp : Bool)
    (h : s.fdSet = false) :
    handleDisconnection s fp = (s, []) := by
  simp [handleDisconnection, h]

/-! ### Drain loop lemmas -/

theorem flushLoop_state (fuel : Nat) (s : State) (oracle : List SendResult) :
    (flushLoop fuel s oracle).1.closing = s.closing
    ∧ (flushLoop fuel s oracle).1.bytesReceived = s.bytesReceived
    ∧ (flushLoop fuel s oracle).1.maxMessages = s.maxMessages
    ∧ ((flushLoop fuel s oracle).1.fdSet = true → s.fdSet = true)
    ∧ s.bytesSent ≤ (flushLoop fuel s oracle).1.bytesSent
    ∧ s.msgsSent ≤ (flushLoop fuel s oracle).1.msgsSent := by
  induction fuel generalizing s oracle with
  | zero => simp [flushLoop]
  | succ fuel ih =>
    rcases hc : s.cursor with _ | ⟨m, off⟩
    · rcases hq : s.queue with _ | ⟨m, rest⟩
      · by_cases hcl : s.closing = true
        · cases hf : s.fdSet <;>
            simp [flushLoop, hc, hq, hcl, handleDisconnection, hf]
        · simp [flushLoop, hc, hq, hcl]
      · have h := ih { s with cursor := some (m, 0), queue := rest,
                              remainingMsgs := s.remainingMsgs - 1 } oracle
        simpa [flushLoop, hc, hq] using h
    · by_cases hml : m.length ≤ off
      · have h := ih { s with cursor := none,
                              bytesSent := s.bytesSent + m.length,
                              msgsSent := s.msgsSent + 1 } oracle
        simp [flushLoop, hc, hml] at h ⊢
        exact ⟨h.1, h.2.1, h.2.2.1, h.2.2.2.1,
               le_trans (Nat.le_add_right _ _) h.2.2.2.2.1,
               le_trans (Nat.le_add_right _ _) h.2.2.2.2.2⟩
      · rcases ho : oracle with _ | ⟨r, rest⟩
        · simp [flushLoop, hc, hml, ho]
        · cases r with
          | wouldBlock => simp [flushLoop, hc, hml, ho]
          | sent n =>
            have h := ih { s with cursor := some (m, min (off + n) m.length) } rest
            simpa [flushLoop, hc, hml, ho] using h
          | sendError code =>
            cases hf : s.fdSet <;>
              simp [flushLoop, hc, hml, ho, handleDisconnection, hf]

theorem flushLoop_disc (fuel : Nat) (s : State) (oracle : List SendResult) :
    noEventAfterDisconnect (flushLoop fuel s oracle).2 = true
    ∧ (hasDisconnect (flushLoop fuel s oracle).2 = true →
        (flushLoop fuel s oracle).1.fdSet = false) := by
  induction fuel generalizing s oracle with
  | zero => simp [flushLoop, noEventAfterDisconnect, hasDisconnect]
  | succ fuel ih =>
    rcases hc : s.cursor with _ | ⟨m, off⟩
    · rcases hq : s.queue with _ | ⟨m, rest⟩
      · by_cases hcl : s.closing = true
        · cases hf : s.fdSet <;>
            simp [flushLoop, hc, hq, hcl, handleDisconnection, hf,
                  noEventAfterDisconnect, hasDisconnect]
        · simp [flushLoop, hc, hq, hcl, noEventAfterDisconnect, hasDisconnect]
      · have h := ih { s with cursor := some (m, 0), queue := rest,
                              remainingMsgs := s.remainingMsgs - 1 } oracle
        simpa [flushLoop, hc, hq] using h
    · by_cases hml : m.length ≤ off
      · have h := ih { s with cursor := none,
                              bytesSent := s.bytesSent + m.length,
                              msgsSent := s.msgsSent + 1 } oracle
        simp [flushLoop, hc, hml, noEventAfterDisconnect, hasDisconnect]
          at h ⊢
        exact h
      · rcases ho : oracle with _ | ⟨r, rest⟩
        · simp [flushLoop, hc, hml, ho, noEventAfterDisconnect, hasDisconnect]
        · cases r with
          | wouldBlock =>
            simp [flushLoop, hc, hml, ho, noEventAfterDisconnect, hasDisconnect]
          | sent n =>
            have h := ih { s with cursor := some (m, min (off + n) m.length) } rest
            simpa [flushLoop, hc, hml, ho] using h
          | sendError code =>
            cases hf : s.fdSet <;>
              simp [flushLoop, hc, hml, ho, handleDisconnection, hf,
                    noEventAfterDisconnect, hasDisconnect]

theorem flushLoop_accounting (fuel : Nat) (s : State) (oracle : List SendResult) :
    resolved (flushLoop fuel s oracle).2
        ++ pendingPayloads (flushLoop fuel s oracle).1
      = pendingPayloads s := by
  induction fuel generalizing s oracle with
  | zero => simp [flushLoop, resolved]
  | succ fuel ih =>
    rcases hc : s.cursor with _ | ⟨m, off⟩
    · rcases hq : s.queue with _ | ⟨m, rest⟩
      · by_cases hcl : s.closing = true
        · cases hf : s.fdSet <;>
            simp [flushLoop, hc, hq, hcl, handleDisconnection, hf,
                  resolved, pendingPayloads]
        · simp [flushLoop, hc, hq, hcl, resolved, pendingPayloads]
      · have h := ih { s with cursor := some (m, 0), queue := rest,
                              remainingMsgs := s.remainingMsgs - 1 } oracle
        simp [flushLoop, hc, hq, pendingPayloads] at h ⊢
        exact h
    · by_cases hml : m.length ≤ off
      · have h := ih { s with cursor := none,
                              bytesSent := s.bytesSent + m.length,
                              msgsSent := s.msgsSent + 1 } oracle
        simp [flushLoop, hc, hml, resolved_cons, pendingPayloads] at h ⊢
        exact h
      · rcases ho : oracle with _ | ⟨r, rest⟩
        · simp [flushLoop, hc, hml, ho, resolved, pendingPayloads]
        · cases r with
          | wouldBlock =>
            simp [flushLoop, hc, hml, ho, resolved, pendingPayloads]
          | sent n =>
            have h := ih { s with cursor := some (m, min (off + n) m.length) } rest
            simp [flushLoop, hc, hml, ho, pendingPayloads] at h ⊢
            exact h
          | sendError code =>
            cases hf : s.fdSet <;>
              simp [flushLoop, hc, hml, ho, handleDisconnection, hf,
                    resolved_cons, resolved, pendingPayloads]

theorem flushLoop_remaining (fuel : Nat) (s : State) (oracle : List SendResult)
    (h : s.remainingMsgs = s.queue.length) :
    (flushLoop fuel s oracle).1.remainingMsgs
      = (flushLoop fuel s oracle).1.queue.length := by
  induction fuel generalizing s oracle with
  | zero => simpa [flushLoop] using h
  | succ fuel ih =>
    rcases hc : s.cursor with _ | ⟨m, off⟩
    · rcases hq : s.queue with _ | ⟨m, rest⟩
      · by_cases hcl : s.closing = true
        · cases hf : s.fdSet <;>
            simp [flushLoop, hc, hq, hcl, handleDisconnection, hf] <;>
            simpa [hq] using h
        · simp [flushLoop, hc, hq, hcl]
          simpa [hq] using h
      · have h' : s.remainingMsgs - 1 = rest.length := by
          rw [h, hq]; simp
        have hrec := ih { s with cursor := some (m, 0), queue := rest,
                                 remainingMsgs := s.remainingMsgs - 1 } oracle
          (by simpa using h')
        simpa [flushLoop, hc, hq] using hrec
    · by_cases hml : m.length ≤ off
      · have hrec := ih { s with cursor := none,
                                 bytesSent := s.bytesSent + m.length,
                                 msgsSent := s.msgsSent + 1 } oracle
          (by simpa using h)
        simpa [flushLoop, hc, hml] using hrec
      · rcases ho : oracle with _ | ⟨r, rest⟩
        · simpa [flushLoop, hc, hml, ho] using h
        · cases r with
          | wouldBlock => simpa [flushLoop, hc, hml, ho] using h
          | sent n =>
            have hrec := ih
              { s with cursor := some (m, min (off + n) m.length) } rest
              (by simpa using h)
            simpa [flushLoop, hc, hml, ho] using hrec
          | sendError code =>
            cases hf : s.fdSet <;>
              simp [flushLoop, hc, hml, ho, handleDisconnection, hf] <;>
              simpa using h

theorem flushLoop_sent (fuel : Nat) (s : State) (oracle : List SendResult)
    (hok : oracleOk oracle = true) :
    (flushLoop fuel s oracle).1.bytesSent
        = s.bytesSent
          + ((sentMsgs (flushLoop fuel s oracle).2).map List.length).sum
    ∧ (flushLoop fuel s oracle).1.msgsSent
        = s.msgsSent + (sentMsgs (flushLoop fuel s oracle).2).length
    ∧ ∀ c w n, Event.writeResult c w n ∈ (flushLoop fuel s oracle).2 →
        (n = w.length ↔ c = 0) := by
  induction fuel generalizing s oracle with
  | zero => simp [flushLoop, sentMsgs]
  | succ fuel ih =>
    rcases hc : s.cursor with _ | ⟨m, off⟩
    · rcases hq : s.queue with _ | ⟨m, rest⟩
      · by_cases hcl : s.closing = true
        · cases hf : s.fdSet <;>
            simp [flushLoop, hc, hq, hcl, handleDisconnection, hf, sentMsgs]
        · simp [flushLoop, hc, hq, hcl, sentMsgs]
      · have h := ih { s with cursor := some (m, 0), queue := rest,
                              remainingMsgs := s.remainingMsgs - 1 } oracle hok
        simpa [flushLoop, hc, hq] using h
    · by_cases hml : m.length ≤ off
      · have h := ih { s with cursor := none,
                              bytesSent := s.bytesSent + m.length,
                              msgsSent := s.msgsSent + 1 } oracle hok
        simp [flushLoop, hc, hml, sentMsgs_cons] at h ⊢
        refine ⟨by omega, by omega, ?_⟩
        intro c w n hmem
        rcases hmem with ⟨rfl, rfl, rfl⟩ | hmem
        · simp
        · exact h.2.2 c w n hmem
      · rcases ho : oracle with _ | ⟨r, rest⟩
        · simp [flushLoop, hc, hml, ho, sentMsgs]
        · cases r with
          | wouldBlock => simp [flushLoop, hc, hml, ho, sentMsgs]
          | sent n =>
            have hok' : oracleOk rest = true := by
              rw [ho] at hok
              simp only [oracleOk, List.all_cons, Bool.and_eq_true] at hok
              exact hok.2
            have h := ih { s with cursor := some (m, min (off + n) m.length) }
              rest hok'
            simpa [flushLoop, hc, hml, ho] using h
          | sendError code =>
            have hcode : ¬ code = 0 := by
              rw [ho] at hok
              simp only [oracleOk, List.all_cons, Bool.and_eq_true] at hok
              simpa using hok.1
            have hoff : ¬ off = m.length := by omega
            cases hf : s.fdSet <;>
            · simp [flushLoop, hc, hml, ho, handleDisconnection, hf,
                    sentMsgs_cons, sentMsgs, hcode, hoff]
              rintro c w n rfl rfl rfl
              exact iff_of_false hoff hcode

theorem readLoop_spec (reads : List ReadResult) (s : State) :
    (readLoop s reads).1.closing = s.closing
    ∧ (readLoop s reads).1.bytesSent = s.bytesSent
    ∧ (readLoop s reads).1.msgsSent = s.msgsSent
    ∧ s.bytesReceived ≤ (readLoop s reads).1.bytesReceived
    ∧ (readLoop s reads).1.maxMessages = s.maxMessages
    ∧ ((readLoop s reads).1.fdSet = true → s.fdSet = true)
    ∧ noEventAfterDisconnect (readLoop s reads).2 = true
    ∧ (hasDisconnect (readLoop s reads).2 = true →
        (readLoop s reads).1.fdSet = false)
    ∧ resolved (readLoop s reads).2 ++ pendingPayloads (readLoop s reads).1
        = pendingPayloads s
    ∧ (s.remainingMsgs = s.queue.length →
        (readLoop s reads).1.remainingMsgs = (readLoop s reads).1.queue.length)
    ∧ sentMsgs (readLoop s reads).2 = [] := by
  induction reads generalizing s with
  | nil =>
    simp [readLoop, noEventAfterDisconnect, hasDisconnect, resolved, sentMsgs]
  | cons r rest ih =>
    cases r with
    | readData b =>
      have h := ih { s with bytesReceived := s.bytesReceived + b.length }
      simp [readLoop, noEventAfterDisconnect, hasDisconnect, resolved_cons,
            sentMsgs_cons, pendingPayloads] at h ⊢
      refine ⟨h.1, h.2.1, h.2.2.1, ?_, h.2.2.2.2⟩
      exact le_trans (Nat.le_add_right _ _) h.2.2.2.1
    | endOfStream =>
      cases hf : s.fdSet <;>
        simp [readLoop, handleDisconnection, hf, noEventAfterDisconnect,
              hasDisconnect, resolved, sentMsgs, pendingPayloads]
    | readWouldBlock =>
      simp [readLoop, noEventAfterDisconnect, hasDisconnect, resolved, sentMsgs]

theorem readLoop_no_writeResult (reads : List ReadResult) (s : State)
    (c : Int) (w : Payload) (n : Nat) :
    Event.writeResult c w n ∉ (readLoop s reads).2 := by
  induction reads generalizing s with
  | nil => simp [readLoop]
  | cons r rest ih =>
    cases r with
    | readData b =>
      simp only [readLoop, List.mem_cons]
      rintro (h | h)
      · exact absurd h (by simp)
      · exact ih _ h
    | endOfStream =>
      cases hf : s.fdSet <;> simp [readLoop, handleDisconnection, hf]
    | readWouldBlock => simp [readLoop]

/-! ### Branch equations for the operations -/

theorem write_config (s : State) (p : Payload)
    (h : ¬ canSendMessages s = true) :
    write s p = (.configError, s) := by
  simp [write, h]

theorem write_full (s : State) (p : Payload) (h : canSendMessages s = true)
    (hcap : s.maxMessages ≤ s.queue.length) :
    write s p = (.capacityError, s) := by
  simp [write, h, hcap]

theorem write_accept (s : State) (p : Payload) (h : canSendMessages s = true)
    (hcap : ¬ s.maxMessages ≤ s.queue.length) :
    write s p
      = (.accepted,
         { s with queue := s.queue ++ [p],
                  remainingMsgs := s.remainingMsgs + 1 }) := by
  simp [write, h, hcap]

theorem requestClose_empty (s : State)
    (h : (s.queue.isEmpty && s.cursor.isNone) = true) :
    requestClose s = handleDisconnection { s with closing := true } false := by
  simp [requestClose, h]

theorem requestClose_busy (s : State)
    (h : ¬ (s.queue.isEmpty && s.cursor.isNone) = true) :
    requestClose s = ({ s with closing := true }, []) := by
  simp [requestClose, h]

theorem handleWriteReady_of_fdSet (s : State) (o : List SendResult)
    (h : s.fdSet = true) :
    handleWriteReady s o
      = flushLoop (flushFuel s o) { s with writeReady := true } o := by
  simp [handleWriteReady, h]

theorem handleWriteReady_of_not_fdSet (s : State) (o : List SendResult)
    (h : s.fdSet = false) :
    handleWriteReady s o = (s, []) := by
  simp [handleWriteReady, h]

theorem handleReadReady_of_fdSet (s : State) (reads : List ReadResult)
    (h : s.fdSet = true) :
    handleReadReady s reads = readLoop s reads := by
  simp [handleReadReady, h]

theorem handleReadReady_of_not_fdSet (s : State) (reads : List ReadResult)
    (h : s.fdSet = false) :
    handleReadReady s reads = (s, []) := by
  simp [handleReadReady, h]

theorem handleWakeup_pos (s : State) (o : List SendResult)
    (h : (s.fdSet && s.writeReady) = true) :
    handleWakeup s o = flushLoop (flushFuel s o) s o := by
  simp [handleWakeup, h]

theorem handleWakeup_neg (s : State) (o : List SendResult)
    (h : ¬ (s.fdSet && s.writeReady) = true) :
    handleWakeup s o = (s, []) := by
  simp [handleWakeup, h]

theorem step_write_eq (s : State) (p : Payload) :
    step s (Action.write p)
      = ((write s p).2, [],
         if (write s p).1 = WriteOutcome.accepted then [p] else []) := rfl

theorem step_requestClose_eq (s : State) :
    step s Action.requestClose
      = ((requestClose s).1, (requestClose s).2, []) := rfl

theorem step_writableReady_eq (s : State) (o : List SendResult) :
    step s (Action.writableReady o)
      = ((handleWriteReady s o).1, (handleWriteReady s o).2, []) := rfl

theorem step_readableReady_eq (s : State) (reads : List ReadResult) :
    step s (Action.readableReady reads)
      = ((handleReadReady s reads).1, (handleReadReady s reads).2, []) := rfl

theorem step_wakeup_eq (s : State) (o : List SendResult) :
    step s (Action.wakeup o)
      = ((handleWakeup s o).1, (handleWakeup s o).2, []) := rfl

/-! ### Step lemmas -/

theorem step_closing (s : State) (a : Action) (h : s.closing = true) :
    (step s a).1.closing = true := by
  cases a with
  | write p =>
    rw [step_write_eq]
    by_cases hcs : canSendMessages s = true
    · by_cases hcap : s.maxMessages ≤ s.queue.length
      · rw [write_full s p hcs hcap]; exact h
      · rw [write_accept s p hcs hcap]; exact h
    · rw [write_config s p hcs]; exact h
  | requestClose =>
    rw [step_requestClose_eq]
    by_cases hqc : (s.queue.isEmpty && s.cursor.isNone) = true
    · rw [requestClose_empty s hqc]
      cases hf : s.fdSet
      · rw [handleDisconnection_of_not_fdSet _ _ (by simpa using hf)]
      · rw [handleDisconnection_of_fdSet _ _ (by simpa using hf)]
    · rw [requestClose_busy s hqc]
  | writableReady o =>
    rw [step_writableReady_eq]
    cases hf : s.fdSet
    · rw [handleWriteReady_of_not_fdSet s o hf]; exact h
    · rw [handleWriteReady_of_fdSet s o hf]
      exact ((flushLoop_state _ _ _).1).trans h
  | readableReady reads =>
    rw [step_readableReady_eq]
    cases hf : s.fdSet
    · rw [handleReadReady_of_not_fdSet s reads hf]; exact h
    · rw [handleReadReady_of_fdSet s reads hf]
      exact ((readLoop_spec reads s).1).trans h
  | wakeup o =>
    rw [step_wakeup_eq]
    by_cases hw : (s.fdSet && s.writeReady) = true
    · rw [handleWakeup_pos s o hw]
      exact ((flushLoop_state _ _ _).1).trans h
    · rw [handleWakeup_neg s o hw]; exact h

theorem step_dead (s : State) (a : Action) (h : s.fdSet = false) :
    (step s a).2.1 = [] ∧ (step s a).1.fdSet = false := by
  cases a with
  | write p =>
    have hcs : ¬ canSendMessages s = true := by simp [canSendMessages, h]
    rw [step_write_eq, write_config s p hcs]
    exact ⟨rfl, h⟩
  | requestClose =>
    rw [step_requestClose_eq]
    by_cases hqc : (s.queue.isEmpty && s.cursor.isNone) = true
    · rw [requestClose_empty s hqc,
          handleDisconnection_of_not_fdSet _ _ (by simpa using h)]
      exact ⟨rfl, h⟩
    · rw [requestClose_busy s hqc]
      exact ⟨rfl, h⟩
  | writableReady o =>
    rw [step_writableReady_eq, handleWriteReady_of_not_fdSet s o h]
    exact ⟨rfl, h⟩
  | readableReady reads =>
    rw [step_readableReady_eq, handleReadReady_of_not_fdSet s reads h]
    exact ⟨rfl, h⟩
  | wakeup o =>
    rw [step_wakeup_eq, handleWakeup_neg s o (by simp [h])]
    exact ⟨rfl, h⟩

theorem step_fdSet_mono (s : State) (a : Action)
    (h : (step s a).1.fdSet = true) : s.fdSet = true := by
  cases hfs : s.fdSet
  · rw [(step_dead s a hfs).2] at h
    exact h
  · rfl

theorem step_disc (s : State) (a : Action) :
    noEventAfterDisconnect (step s a).2.1 = true
    ∧ (hasDisconnect (step s a).2.1 = true → (step s a).1.fdSet = false) := by
  cases a with
  | write p =>
    rw [step_write_eq]
    simp [noEventAfterDisconnect, hasDisconnect]
  | requestClose =>
    rw [step_requestClose_eq]
    by_cases hqc : (s.queue.isEmpty && s.cursor.isNone) = true
    · rw [requestClose_empty s hqc]
      cases hf : s.fdSet
      · rw [handleDisconnection_of_not_fdSet _ _ (by simpa using hf)]
        simp [noEventAfterDisconnect, hasDisconnect, hf]
      · rw [handleDisconnection_of_fdSet _ _ (by simpa using hf)]
        simp [noEventAfterDisconnect, hasDisconnect]
    · rw [requestClose_busy s hqc]
      simp [noEventAfterDisconnect, hasDisconnect]
  | writableReady o =>
    rw [step_writableReady_eq]
    cases hf : s.fdSet
    · rw [handleWriteReady_of_not_fdSet s o hf]
      simp [noEventAfterDisconnect, hasDisconnect]
    · rw [handleWriteReady_of_fdSet s o hf]
      exact flushLoop_disc _ _ _
  | readableReady reads =>
    rw [step_readableReady_eq]
    cases hf : s.fdSet
    · rw [handleReadReady_of_not_fdSet s reads hf]
      simp [noEventAfterDisconnect, hasDisconnect]
    · rw [handleReadReady_of_fdSet s reads hf]
      obtain ⟨-, -, -, -, -, -, h7, h8, -, -, -⟩ := readLoop_spec reads s
      exact ⟨h7, h8⟩
  | wakeup o =>
    rw [step_wakeup_eq]
    by_cases hw : (s.fdSet && s.writeReady) = true
    · rw [handleWakeup_pos s o hw]
      exact flushLoop_disc _ _ _
    · rw [handleWakeup_neg s o hw]
      simp [noEventAfterDisconnect, hasDisconnect]

theorem step_accounting (s : State) (a : Action) :
    resolved (step s a).2.1 ++ pendingPayloads (step s a).1
      = pendingPayloads s ++ (step s a).2.2 := by
  cases a with
  | write p =>
    rw [step_write_eq]
    by_cases hcs : canSendMessages s = true
    · by_cases hcap : s.maxMessages ≤ s.queue.length
      · rw [write_full s p hcs hcap]
        simp [resolved]
      · rw [write_accept s p hcs hcap]
        simp [resolved, pendingPayloads]
    · rw [write_config s p hcs]
      simp [resolved]
  | requestClose =>
    rw [step_requestClose_eq]
    by_cases hqc : (s.queue.isEmpty && s.cursor.isNone) = true
    · rw [requestClose_empty s hqc]
      cases hf : s.fdSet
      · rw [handleDisconnection_of_not_fdSet _ _ (by simpa using hf)]
        simp [resolved, pendingPayloads]
      · rw [handleDisconnection_of_fdSet _ _ (by simpa using hf)]
        simp [resolved, pendingPayloads]
    · rw [requestClose_busy s hqc]
      simp [resolved, pendingPayloads]
  | writableReady o =>
    rw [step_writableReady_eq]
    cases hf : s.fdSet
    · rw [handleWriteReady_of_not_fdSet s o hf]
      simp [resolved]
    · rw [handleWriteReady_of_fdSet s o hf]
      have h := flushLoop_accounting (flushFuel s o) { s with writeReady := true } o
      simpa [pendingPayloads] using h
  | readableReady reads =>
    rw [step_readableReady_eq]
    cases hf : s.fdSet
    · rw [handleReadReady_of_not_fdSet s reads hf]
      simp [resolved]
    · rw [handleReadReady_of_fdSet s reads hf]
      obtain ⟨-, -, -, -, -, -, -, -, h9, -, -⟩ := readLoop_spec reads s
      simpa using h9
  | wakeup o =>
    rw [step_wakeup_eq]
    by_cases hw : (s.fdSet && s.writeReady) = true
    · rw [handleWakeup_pos s o hw]
      simpa using flushLoop_accounting (flushFuel s o) s o
    · rw [handleWakeup_neg s o hw]
      simp [resolved]

theorem step_remaining (s : State) (a : Action)
    (h : s.remainingMsgs = s.queue.length) :
    (step s a).1.remainingMsgs = (step s a).1.queue.length := by
  cases a with
  | write p =>
    rw [step_write_eq]
    by_cases hcs : canSendMessages s = true
    · by_cases hcap : s.maxMessages ≤ s.queue.length
      · rw [write_full s p hcs hcap]; exact h
      · rw [write_accept s p hcs hcap]; simp [h]
    · rw [write_config s p hcs]; exact h
  | requestClose =>
    rw [step_requestClose_eq]
    by_cases hqc : (s.queue.isEmpty && s.cursor.isNone) = true
    · rw [requestClose_empty s hqc]
      cases hf : s.fdSet
      · rw [handleDisconnection_of_not_fdSet _ _ (by simpa using hf)]; exact h
      · rw [handleDisconnection_of_fdSet _ _ (by simpa using hf)]; rfl
    · rw [requestClose_busy s hqc]; exact h
  | writableReady o =>
    rw [step_writableReady_eq]
    cases hf : s.fdSet
    · rw [handleWriteReady_of_not_fdSet s o hf]; exact h
    · rw [handleWriteReady_of_fdSet s o hf]
      exact flushLoop_remaining _ _ _ h
  | readableReady reads =>
    rw [step_readableReady_eq]
    cases hf : s.fdSet
    · rw [handleReadReady_of_not_fdSet s reads hf]; exact h
    · rw [handleReadReady_of_fdSet s reads hf]
      obtain ⟨-, -, -, -, -, -, -, -, -, h10, -⟩ := readLoop_spec reads s
      exact h10 h
  | wakeup o =>
    rw [step_wakeup_eq]
    by_cases hw : (s.fdSet && s.writeReady) = true
    · rw [handleWakeup_pos s o hw]
      exact flushLoop_remaining _ _ _ h
    · rw [handleWakeup_neg s o hw]; exact h

theorem step_counters (s : State) (a : Action) :
    s.bytesSent ≤ (step s a).1.bytesSent
    ∧ s.bytesReceived ≤ (step s a).1.bytesReceived
    ∧ s.msgsSent ≤ (step s a).1.msgsSent := by
  cases a with
  | write p =>
    rw [step_write_eq]
    by_cases hcs : canSendMessages s = true
    · by_cases hcap : s.maxMessages ≤ s.queue.length
      · rw [write_full s p hcs hcap]
        exact ⟨le_refl _, le_refl _, le_refl _⟩
      · rw [write_accept s p hcs hcap]
        exact ⟨le_refl _, le_refl _, le_refl _⟩
    · rw [write_config s p hcs]
      exact ⟨le_refl _, le_refl _, le_refl _⟩
  | requestClose =>
    rw [step_requestClose_eq]
    by_cases hqc : (s.queue.isEmpty && s.cursor.isNone) = true
    · rw [requestClose_empty s hqc]
      cases hf : s.fdSet
      · rw [handleDisconnection_of_not_fdSet _ _ (by simpa using hf)]
        exact ⟨le_refl _, le_refl _, le_refl _⟩
      · rw [handleDisconnection_of_fdSet _ _ (by simpa using hf)]
        exact ⟨le_refl _, le_refl _, le_refl _⟩
    · rw [requestClose_busy s hqc]
      exact ⟨le_refl _, le_refl _, le_refl _⟩
  | writableReady o =>
    rw [step_writableReady_eq]
    cases hf : s.fdSet
    · rw [handleWriteReady_of_not_fdSet s o hf]
      exact ⟨le_refl _, le_refl _, le_refl _⟩
    · rw [handleWriteReady_of_fdSet s o hf]
      obtain ⟨-, h2, -, -, h5, h6⟩ :=
        flushLoop_state (flushFuel s o) { s with writeReady := true } o
      exact ⟨h5, le_of_eq h2.symm, h6⟩
  | readableReady reads =>
    rw [step_readableReady_eq]
    cases hf : s.fdSet
    · rw [handleReadReady_of_not_fdSet s reads hf]
      exact ⟨le_refl _, le_refl _, le_refl _⟩
    · rw [handleReadReady_of_fdSet s reads hf]
      obtain ⟨-, h2, h3, h4, -, -, -, -, -, -, -⟩ := readLoop_spec reads s
      exact ⟨le_of_eq h2.symm, h4, le_of_eq h3.symm⟩
  | wakeup o =>
    rw [step_wakeup_eq]
    by_cases hw : (s.fdSet && s.writeReady) = true
    · rw [handleWakeup_pos s o hw]
      obtain ⟨-, h2, -, -, h5, h6⟩ := flushLoop_state (flushFuel s o) s o
      exact ⟨h5, le_of_eq h2.symm, h6⟩
    · rw [handleWakeup_neg s o hw]
      exact ⟨le_refl _, le_refl _, le_refl _⟩

theorem step_sent (s : State) (a : Action) (hok : actionOk a = true) :
    (step s a).1.bytesSent
        = s.bytesSent + ((sentMsgs (step s a).2.1).map List.length).sum
    ∧ (step s a).1.msgsSent = s.msgsSent + (sentMsgs (step s a).2.1).length
    ∧ ∀ c w n, Event.writeResult c w n ∈ (step s a).2.1 →
        (n = w.length ↔ c = 0) := by
  cases a with
  | write p =>
    rw [step_write_eq]
    by_cases hcs : canSendMessages s = true
    · by_cases hcap : s.maxMessages ≤ s.queue.length
      · rw [write_full s p hcs hcap]; simp [sentMsgs]
      · rw [write_accept s p hcs hcap]; simp [sentMsgs]
    · rw [write_config s p hcs]; simp [sentMsgs]
  | requestClose =>
    rw [step_requestClose_eq]
    by_cases hqc : (s.queue.isEmpty && s.cursor.isNone) = true
    · rw [requestClose_empty s hqc]
      cases hf : s.fdSet
      · rw [handleDisconnection_of_not_fdSet _ _ (by simpa using hf)]
        simp [sentMsgs]
      · rw [handleDisconnection_of_fdSet _ _ (by simpa using hf)]
        simp [sentMsgs]
    · rw [requestClose_busy s hqc]; simp [sentMsgs]
  | writableReady o =>
    rw [step_writableReady_eq]
    cases hf : s.fdSet
    · rw [handleWriteReady_of_not_fdSet s o hf]; simp [sentMsgs]
    · rw [handleWriteReady_of_fdSet s o hf]
      exact flushLoop_sent _ _ _ (by simpa [actionOk] using hok)
  | readableReady reads =>
    rw [step_readableReady_eq]
    cases hf : s.fdSet
    · rw [handleReadReady_of_not_fdSet s reads hf]; simp [sentMsgs]
    · rw [handleReadReady_of_fdSet s reads hf]
      obtain ⟨-, h2, h3, -, -, -, -, -, -, -, h11⟩ := readLoop_spec reads s
      refine ⟨by simp [h11, h2], by simp [h11, h3], ?_⟩
      exact fun c w n hmem => absurd hmem (readLoop_no_writeResult _ _ _ _ _)
  | wakeup o =>
    rw [step_wakeup_eq]
    by_cases hw : (s.fdSet && s.writeReady) = true
    · rw [handleWakeup_pos s o hw]
      exact flushLoop_sent _ _ _ (by simpa [actionOk] using hok)
    · rw [handleWakeup_neg s o hw]; simp [sentMsgs]

/-! ### Single-step equations for the drain loop -/

theorem flushLoop_dequeue (fuel : Nat) (s : State) (oracle : List SendResult)
    (m : Payload) (rest : List Payload)
    (hc : s.cursor = none) (hq : s.queue = m :: rest) :
    flushLoop (fuel + 1) s oracle
      = flushLoop fuel
          { s with cursor := some (m, 0), queue := rest,
                   remainingMsgs := s.remainingMsgs - 1 } oracle := by
  simp [flushLoop, hc, hq]

theorem flushLoop_complete (fuel : Nat) (s : State) (oracle : List SendResult)
    (m : Payload) (off : Nat)
    (hc : s.cursor = some (m, off)) (hml : m.length ≤ off) :
    flushLoop (fuel + 1) s oracle
      = ((flushLoop fuel
            { s with cursor := none, bytesSent := s.bytesSent + m.length,
                     msgsSent := s.msgsSent + 1 } oracle).1,
         Event.writeResult 0 m m.length
           :: (flushLoop fuel
                { s with cursor := none, bytesSent := s.bytesSent + m.length,
                         msgsSent := s.msgsSent + 1 } oracle).2) := by
  simp [flushLoop, hc, hml]

theorem flushLoop_send (fuel : Nat) (s : State) (m : Payload) (off n : Nat)
    (orest : List SendResult)
    (hc : s.cursor = some (m, off)) (hml : ¬ m.length ≤ off) :
    flushLoop (fuel + 1) s (SendResult.sent n :: orest)
      = flushLoop fuel
          { s with cursor := some (m, min (off + n) m.length) } orest := by
  simp [flushLoop, hc, hml]

theorem flushLoop_close (fuel : Nat) (s : State) (oracle : List SendResult)
    (hc : s.cursor = none) (hq : s.queue = []) (hcl : s.closing = true) :
    flushLoop (fuel + 1) s oracle = handleDisconnection s false := by
  simp [flushLoop, hc, hq, hcl]

/-- Draining a single fully-sendable pending message under `closing`:
one dequeue, one full send, one successful write result, then close and
disconnect with an empty undelivered list. -/
theorem flushLoop_single_drain (f : Nat) (s : State) (m : Payload)
    (hf : s.fdSet = true) (hcl : s.closing = true) (hq : s.queue = [m])
    (hc : s.cursor = none) (hm : m ≠ []) :
    flushLoop (f + 1 + 1 + 1 + 1) s [SendResult.sent m.length]
      = ({ s with fdSet := false, queue := [], remainingMsgs := 0,
                  cursor := none, bytesSent := s.bytesSent + m.length,
                  msgsSent := s.msgsSent + 1 },
         [Event.writeResult 0 m m.length,
          Event.disconnected false []]) := by
  have hml : ¬ m.length ≤ 0 := by
    have := List.length_pos.mpr hm
    omega
  rw [flushLoop_dequeue _ _ _ m [] hc hq]
  rw [flushLoop_send _ _ m 0 m.length [] (by simp) (by simpa using hml)]
  simp only [Nat.zero_add, min_self]
  rw [flushLoop_complete _ _ _ m m.length (by simp) (le_refl _)]
  rw [flushLoop_close _ _ _ (by simp) (by simp) (by simpa using hcl)]
  rw [handleDisconnection_of_fdSet _ _ (by simpa using hf)]
  simp [pendingPayloads]

/-! ### Dead states hold no pending payloads -/

theorem flushLoop_deadClean (fuel : Nat) (s : State) (oracle : List SendResult)
    (hP : s.fdSet = false → pendingPayloads s = []) :
    (flushLoop fuel s oracle).1.fdSet = false →
      pendingPayloads (flushLoop fuel s oracle).1 = [] := by
  induction fuel generalizing s oracle with
  | zero => simpa [flushLoop] using hP
  | succ fuel ih =>
    rcases hc : s.cursor with _ | ⟨m, off⟩
    · rcases hq : s.queue with _ | ⟨m, rest⟩
      · by_cases hcl : s.closing = true
        · rw [flushLoop_close _ _ _ hc hq hcl]
          cases hfd : s.fdSet
          · rw [handleDisconnection_of_not_fdSet _ _ hfd]
            intro _
            simp [pendingPayloads, hc, hq]
          · rw [handleDisconnection_of_fdSet _ _ hfd]
            intro _
            simp [pendingPayloads]
        · simp [flushLoop, hc, hq, hcl]
          intro hfd
          simp [pendingPayloads, hc, hq]
      · rw [flushLoop_dequeue _ _ _ m rest hc hq]
        refine ih _ oracle ?_
        intro hfd
        exact absurd (hP (by simpa using hfd))
          (by simp [pendingPayloads, hc, hq])
    · by_cases hml : m.length ≤ off
      · rw [flushLoop_complete _ _ _ m off hc hml]
        refine ih _ oracle ?_
        intro hfd
        exact absurd (hP (by simpa using hfd))
          (by simp [pendingPayloads, hc])
      · rcases ho : oracle with _ | ⟨r, orest⟩
        · simp [flushLoop, hc, hml]
          intro hfd
          exact absurd (hP (by simpa using hfd))
            (by simp [pendingPayloads, hc])
        · cases r with
          | wouldBlock =>
            simp [flushLoop, hc, hml]
            intro hfd
            exact absurd (hP (by simpa using hfd))
              (by simp [pendingPayloads, hc])
          | sent n =>
            rw [flushLoop_send _ _ m off n orest hc hml]
            refine ih _ orest ?_
            intro hfd
            exact absurd (hP (by simpa using hfd))
              (by simp [pendingPayloads, hc])
          | sendError code =>
            simp only [flushLoop, hc]
            rw [if_neg hml]
            cases hfd : s.fdSet
            · rw [handleDisconnection_of_not_fdSet _ _ (by simpa using hfd)]
              intro _
              exact absurd (hP (by simpa using hfd))
                (by simp [pendingPayloads, hc])
            · rw [handleDisconnection_of_fdSet _ _ (by simpa using hfd)]
              intro _
              simp [pendingPayloads]

theorem readLoop_deadClean (reads : List ReadResult) (s : State)
    (hP : s.fdSet = false → pendingPayloads s = []) :
    (readLoop s reads).1.fdSet = false →
      pendingPayloads (readLoop s reads).1 = [] := by
  induction reads generalizing s with
  | nil => simpa [readLoop] using hP
  | cons r rest ih =>
    cases r with
    | readData b =>
      simp only [readLoop]
      refine ih _ ?_
      intro hfd
      exact (by simpa [pendingPayloads] using hP (by simpa using hfd))
    | endOfStream =>
      simp only [readLoop]
      cases hfd : s.fdSet
      · rw [handleDisconnection_of_not_fdSet _ _ hfd]
        intro _
        exact hP hfd
      · rw [handleDisconnection_of_fdSet _ _ hfd]
        intro _
        simp [pendingPayloads]
    | readWouldBlock =>
      simpa [readLoop] using hP

theorem step_deadClean (s : State) (a : Action)
    (hP : s.fdSet = false → pendingPayloads s = []) :
    (step s a).1.fdSet = false → pendingPayloads (step s a).1 = [] := by
  cases a with
  | write p =>
    rw [step_write_eq]
    by_cases hcs : canSendMessages s = true
    · by_cases hcap : s.maxMessages ≤ s.queue.length
      · rw [write_full s p hcs hcap]; exact hP
      · rw [write_accept s p hcs hcap]
        intro hfd
        have hft : s.fdSet = true := by
          simp [canSendMessages, Bool.and_eq_true] at hcs
          exact hcs.1
        rw [hft] at hfd
        exact absurd hfd (by simp)
    · rw [write_config s p hcs]; exact hP
  | requestClose =>
    rw [step_requestClose_eq]
    by_cases hqc : (s.queue.isEmpty && s.cursor.isNone) = true
    · rw [requestClose_empty s hqc]
      cases hfd : s.fdSet
      · rw [handleDisconnection_of_not_fdSet _ _ (by simpa using hfd)]
        intro _
        simpa [pendingPayloads] using hP hfd
      · rw [handleDisconnection_of_fdSet _ _ (by simpa using hfd)]
        intro _
        simp [pendingPayloads]
    · rw [requestClose_busy s hqc]
      intro hfd
      simpa [pendingPayloads] using hP (by simpa using hfd)
  | writableReady o =>
    rw [step_writableReady_eq]
    cases hfd : s.fdSet
    · rw [handleWriteReady_of_not_fdSet s o hfd]
      exact hP
    · rw [handleWriteReady_of_fdSet s o hfd]
      refine flushLoop_deadClean _ _ _ ?_
      intro h
      exact absurd h (by simp [hfd])
  | readableReady reads =>
    rw [step_readableReady_eq]
    cases hfd : s.fdSet
    · rw [handleReadReady_of_not_fdSet s reads hfd]
      exact hP
    · rw [handleReadReady_of_fdSet s reads hfd]
      exact readLoop_deadClean reads s hP
  | wakeup o =>
    rw [step_wakeup_eq]
    by_cases hw : (s.fdSet && s.writeReady) = true
    · rw [handleWakeup_pos s o hw]
      exact flushLoop_deadClean _ _ _ hP
    · rw [handleWakeup_neg s o hw]
      exact hP

/-! ### Read-path trace shape -/

theorem readLoop_datas_eof (datas : List Payload) (s : State)
    (hfd : s.fdSet = true) (rest : List ReadResult) :
    (readLoop s (datas.map ReadResult.readData
        ++ ReadResult.endOfStream :: rest)).2
      = datas.map Event.dataReceived
        ++ [Event.disconnected true (pendingPayloads s)] := by
  induction datas generalizing s with
  | nil =>
    simp only [List.map_nil, List.nil_append, readLoop]
    rw [handleDisconnection_of_fdSet _ _ hfd]
  | cons b bs ih =>
    simp only [List.map_cons, List.cons_append, readLoop, List.append_eq]
    rw [ih { s with bytesReceived := s.bytesReceived + b.length }
          (by simpa using hfd)]
    simp [pendingPayloads]

/-! ### Run lemmas -/

theorem run_nil_eq (s : State) : run s [] = (s, [], []) := rfl

theorem run_cons_eq (s : State) (a : Action) (rest : List Action) :
    run s (a :: rest)
      = ((run (step s a).1 rest).1,
         (step s a).2.1 ++ (run (step s a).1 rest).2.1,
         (step s a).2.2 ++ (run (step s a).1 rest).2.2) := rfl

theorem run_closing (s : State) (script : List Action) (h : s.closing = true) :
    (run s script).1.closing = true := by
  induction script generalizing s with
  | nil => exact h
  | cons a rest ih => exact ih (step s a).1 (step_closing s a h)

theorem run_dead (s : State) (script : List Action) (h : s.fdSet = false) :
    (run s script).2.1 = [] ∧ (run s script).1.fdSet = false := by
  induction script generalizing s with
  | nil => exact ⟨rfl, h⟩
  | cons a rest ih =>
    obtain ⟨he, hf⟩ := step_dead s a h
    obtain ⟨he2, hf2⟩ := ih (step s a).1 hf
    rw [run_cons_eq]
    exact ⟨by rw [he, he2]; rfl, hf2⟩

theorem run_fdSet_mono (s : State) (script : List Action)
    (h : (run s script).1.fdSet = true) : s.fdSet = true := by
  induction script generalizing s with
  | nil => exact h
  | cons a rest ih =>
    exact step_fdSet_mono s a (ih (step s a).1 h)

theorem run_disc (s : State) (script : List Action) :
    noEventAfterDisconnect (run s script).2.1 = true
    ∧ (hasDisconnect (run s script).2.1 = true →
        (run s script).1.fdSet = false) := by
  induction script generalizing s with
  | nil => simp [run_nil_eq, noEventAfterDisconnect, hasDisconnect]
  | cons a rest ih =>
    obtain ⟨hs1, hs2⟩ := step_disc s a
    obtain ⟨hr1, hr2⟩ := ih (step s a).1
    rw [run_cons_eq]
    constructor
    · exact noEventAfterDisconnect_append _ _ hs1 hr1
        (fun hd => (run_dead _ rest (hs2 hd)).1)
    · intro hd
      rw [hasDisconnect_append, Bool.or_eq_true] at hd
      rcases hd with hd | hd
      · exact (run_dead _ rest (hs2 hd)).2
      · exact hr2 hd

theorem run_accounting (s : State) (script : List Action) :
    resolved (run s script).2.1 ++ pendingPayloads (run s script).1
      = pendingPayloads s ++ (run s script).2.2 := by
  induction script generalizing s with
  | nil => simp [run_nil_eq, resolved]
  | cons a rest ih =>
    rw [run_cons_eq]
    simp only [resolved_append, List.append_assoc]
    rw [ih (step s a).1, ← List.append_assoc, step_accounting s a,
        List.append_assoc]

theorem run_remaining (s : State) (script : List Action)
    (h : s.remainingMsgs = s.queue.length) :
    (run s script).1.remainingMsgs = (run s script).1.queue.length := by
  induction script generalizing s with
  | nil => exact h
  | cons a rest ih => exact ih (step s a).1 (step_remaining s a h)

theorem run_sent (s : State) (script : List Action)
    (hok : scriptOk script = true) :
    (run s script).1.bytesSent
        = s.bytesSent + ((sentMsgs (run s script).2.1).map List.length).sum
    ∧ (run s script).1.msgsSent
        = s.msgsSent + (sentMsgs (run s script).2.1).length
    ∧ ∀ c w n, Event.writeResult c w n ∈ (run s script).2.1 →
        (n = w.length ↔ c = 0) := by
  induction script generalizing s with
  | nil => simp [run_nil_eq, sentMsgs]
  | cons a rest ih =>
    have hok' : actionOk a = true ∧ scriptOk rest = true := by
      simpa [scriptOk, List.all_cons] using hok
    obtain ⟨hs1, hs2, hs3⟩ := step_sent s a hok'.1
    obtain ⟨hr1, hr2, hr3⟩ := ih (step s a).1 hok'.2
    rw [run_cons_eq]
    refine ⟨?_, ?_, ?_⟩
    · simp only [sentMsgs_append, List.map_append, List.sum_append]
      rw [hr1, hs1]
      omega
    · simp only [sentMsgs_append, List.length_append]
      rw [hr2, hs2]
      omega
    · intro c w n hmem
      rw [List.mem_append] at hmem
      rcases hmem with hmem | hmem
      · exact hs3 c w n hmem
      · exact hr3 c w n hmem

theorem run_deadClean (s : State) (script : List Action)
    (hP : s.fdSet = false → pendingPayloads s = []) :
    (run s script).1.fdSet = false →
      pendingPayloads (run s script).1 = [] := by
  induction script generalizing s with
  | nil => exact hP
  | cons a rest ih => exact ih (step s a).1 (step_deadClean s a hP)

theorem requestClose_closing (s : State) :
    (requestClose s).1.closing = true := by
  by_cases hqc : (s.queue.isEmpty && s.cursor.isNone) = true
  · rw [requestClose_empty s hqc]
    cases hf : s.fdSet
    · rw [handleDisconnection_of_not_fdSet _ _ rfl]
    · rw [handleDisconnection_of_fdSet _ _ rfl]
  · rw [requestClose_busy s hqc]

/-! ### Claim theorems -/

/-- C1: the payloads accepted by `write` over any execution are, in order,
exactly those resolved through a `writeResult` callback or a disconnect's
undelivered list, plus those still pending — each accepted payload's fate is
unique; once the instance has disconnected, the accepted payloads coincide
exactly with the resolved ones: each is reported exactly once, never more,
never none. -/
theorem c1_exactly_once (maxM : Nat) (script : List Action) :
    (run (initialState maxM) script).2.2
      = resolved (run (initialState maxM) script).2.1
        ++ pendingPayloads (run (initialState maxM) script).1
    ∧ ((run (initialState maxM) script).1.fdSet = false →
        (run (initialState maxM) script).2.2
          = resolved (run (initialState maxM) script).2.1) := by
  have h := run_accounting (initialState maxM) script
  have hp : pendingPayloads (initialState maxM) = [] := rfl
  rw [hp, List.nil_append] at h
  refine ⟨h.symm, fun hdead => ?_⟩
  have hclean := run_deadClean (initialState maxM) script
      (fun hfd => absurd hfd (by simp [initialState])) hdead
  rw [hclean, List.append_nil] at h
  exact h.symm

/-- Witness for C1 at a concrete script in which the single accepted payload
is drained and the instance disconnects. -/
theorem c1_exactly_once_witness :
    (run (initialState 2) [Action.write [1], Action.requestClose,
        Action.writableReady [SendResult.sent 1]]).2.2
      = resolved (run (initialState 2) [Action.write [1], Action.requestClose,
          Action.writableReady [SendResult.sent 1]]).2.1 :=
  (c1_exactly_once 2 [Action.write [1], Action.requestClose,
      Action.writableReady [SendResult.sent 1]]).2 (by decide)

/-- C2: with the descriptor set and `closing` false, `write` fails with a
capacity error iff the queue already holds `maxMessages` pending entries;
after one entry of a full queue has been removed, a write is accepted
again. -/
theorem c2_capacity_iff_full (s : State) (p q : Payload)
    (hfd : s.fdSet = true) (hcl : s.closing = false)
    (hlen : s.queue.length ≤ s.maxMessages) :
    ((write s p).1 = WriteOutcome.capacityError
      ↔ s.queue.length = s.maxMessages)
    ∧ (s.queue.length = s.maxMessages → s.queue ≠ [] →
        (write { s with queue := s.queue.tail } q).1
          = WriteOutcome.accepted) := by
  have hcs : canSendMessages s = true := by simp [canSendMessages, hfd, hcl]
  constructor
  · constructor
    · intro h
      by_cases hcap : s.maxMessages ≤ s.queue.length
      · omega
      · rw [write_accept s p hcs hcap] at h
        exact absurd h (by simp)
    · intro h
      rw [write_full s p hcs (le_of_eq h.symm)]
  · intro hful hne
    have hpos : 0 < s.queue.length := List.length_pos.mpr hne
    have hlt : ¬ s.maxMessages ≤ s.queue.tail.length := by
      rw [List.length_tail]
      omega
    rw [write_accept { s with queue := s.queue.tail } q
        (by simp [canSendMessages, hfd, hcl]) hlt]

/-- The engine state with a full one-slot queue, used as the C2 witness
input. -/
def fullState : State :=
  { initialState 1 with queue := [[1]], remainingMsgs := 1 }

/-- Witness for C2 at a concrete full-queue state. -/
theorem c2_capacity_iff_full_witness :
    ((write fullState [2]).1 = WriteOutcome.capacityError
      ↔ fullState.queue.length = fullState.maxMessages)
    ∧ (write { fullState with queue := fullState.queue.tail } [3]).1
        = WriteOutcome.accepted := by
  have h := c2_capacity_iff_full fullState [2] [3] rfl rfl (by decide)
  exact ⟨h.1, h.2 (by decide) (by decide)⟩

/-- C3: after `requestClose` every subsequent `write` fails with a
configuration error and `canSendMessages` returns false; in general a write
fails with a configuration error whenever `closing` is true or the
descriptor is unset, and `canSendMessages` is true exactly when the
descriptor is set and `closing` is false. -/
theorem c3_write_after_requestClose (s : State) (script : List Action)
    (p : Payload) :
    (write (run (requestClose s).1 script).1 p).1 = WriteOutcome.configError
    ∧ canSendMessages (run (requestClose s).1 script).1 = false
    ∧ (∀ s' : State, s'.closing = true ∨ s'.fdSet = false →
        (write s' p).1 = WriteOutcome.configError
          ∧ canSendMessages s' = false)
    ∧ (canSendMessages s = true ↔ (s.fdSet = true ∧ s.closing = false)) := by
  have hgen : ∀ s' : State, s'.closing = true ∨ s'.fdSet = false →
      (write s' p).1 = WriteOutcome.configError
        ∧ canSendMessages s' = false := by
    intro s' h'
    have hcs : canSendMessages s' = false := by
      rcases h' with h' | h' <;> simp [canSendMessages, h']
    exact ⟨by rw [write_config s' p (by simp [hcs])], hcs⟩
  have hcl : (run (requestClose s).1 script).1.closing = true :=
    run_closing _ script (requestClose_closing s)
  refine ⟨(hgen _ (Or.inl hcl)).1, (hgen _ (Or.inl hcl)).2, hgen, ?_⟩
  simp [canSendMessages]

/-- Witness for C3 at the fresh instance and the empty continuation. -/
theorem c3_write_after_requestClose_witness :
    (write (run (requestClose (initialState 2)).1 []).1 [1]).1
        = WriteOutcome.configError
    ∧ canSendMessages (run (requestClose (initialState 2)).1 []).1 = false
    ∧ ((write { initialState 2 with closing := true } [1]).1
          = WriteOutcome.configError
        ∧ canSendMessages { initialState 2 with closing := true } = false)
    ∧ (canSendMessages (initialState 2) = true
        ↔ ((initialState 2).fdSet = true
            ∧ (initialState 2).closing = false)) := by
  have h := c3_write_after_requestClose (initialState 2) [] [1]
  exact ⟨h.1, h.2.1, h.2.2.1 _ (Or.inl rfl), h.2.2.2⟩

/-- C4: over any execution the trace contains at most one disconnect
callback, and whenever the disconnection sequence runs on a live descriptor
it fires the disconnect callback exactly once, with the undelivered list
equal to the pending payloads — the partially-sent in-flight payload, if
any, followed by the still-pending queue contents, in order. -/
theorem c4_disconnect_once (maxM : Nat) (script : List Action) :
    countDisconnects (run (initialState maxM) script).2.1 ≤ 1
    ∧ (∀ (s : State) (fromPeer : Bool), s.fdSet = true →
        (handleDisconnection s fromPeer).2
          = [Event.disconnected fromPeer (pendingPayloads s)]) := by
  refine ⟨noEventAfterDisconnect_countD _ (run_disc _ script).1, ?_⟩
  intro s fp h
  rw [handleDisconnection_of_fdSet s fp h]

/-- Witness for C4: two end-of-stream events still produce one disconnect. -/
theorem c4_disconnect_once_witness :
    countDisconnects (run (initialState 2)
        [Action.readableReady [ReadResult.endOfStream],
         Action.readableReady [ReadResult.endOfStream]]).2.1 ≤ 1
    ∧ (handleDisconnection (initialState 2) false).2
        = [Event.disconnected false (pendingPayloads (initialState 2))] := by
  have h := c4_disconnect_once 2
      [Action.readableReady [ReadResult.endOfStream],
       Action.readableReady [ReadResult.endOfStream]]
  exact ⟨h.1, h.2 (initialState 2) false rfl⟩

/-- C5: a read yielding 0 bytes (end of stream) triggers the disconnection
sequence exactly once with `fromPeer = true` — the readable-readiness event
reports the data read before it and ends in exactly one disconnect — and no
`dataReceived` callback occurs after a disconnect anywhere in a trace. -/
theorem c5_eof_disconnects (maxM : Nat) (script : List Action)
    (s : State) (datas : List Payload) (hfd : s.fdSet = true) :
    (handleReadReady s
        (datas.map ReadResult.readData ++ [ReadResult.endOfStream])).2
      = datas.map Event.dataReceived
        ++ [Event.disconnected true (pendingPayloads s)]
    ∧ ∀ l₁ fp u l₂,
        (run (initialState maxM) script).2.1
            = l₁ ++ Event.disconnected fp u :: l₂ →
        ∀ e ∈ l₂, isDataReceived e = false := by
  constructor
  · rw [handleReadReady_of_fdSet s _ hfd]
    exact readLoop_datas_eof datas s hfd []
  · intro l₁ fp u l₂ heq e hmem
    have hne := (run_disc (initialState maxM) script).1
    rw [heq] at hne
    have hl₂ : l₂ = [] := noEventAfterDisconnect_split l₁ fp u l₂ hne
    subst hl₂
    exact absurd hmem (List.not_mem_nil e)

/-- Witness for C5: one data chunk then end of stream on the fresh
instance. -/
theorem c5_eof_disconnects_witness :
    (handleReadReady (initialState 2)
        ([[5]].map ReadResult.readData ++ [ReadResult.endOfStream])).2
      = [[5]].map Event.dataReceived
        ++ [Event.disconnected true (pendingPayloads (initialState 2))]
    ∧ ∀ e ∈ ([] : List Event), isDataReceived e = false := by
  have h := c5_eof_disconnects 2 [Action.readableReady [ReadResult.endOfStream]]
      (initialState 2) [[5]] rfl
  exact ⟨h.1, h.2 [] true [] [] (by decide)⟩

/-- C7: in any well-formed execution, every write-result callback carries
`writtenSize` equal to the written payload's length iff its error is 0; in
particular a completed in-flight message is reported with error 0 and
`writtenSize` equal to the message length. -/
theorem c7_writeResult_size_iff (maxM : Nat) (script : List Action)
    (hok : scriptOk script = true) :
    (∀ c w n, Event.writeResult c w n ∈ (run (initialState maxM) script).2.1 →
        (n = w.length ↔ c = 0))
    ∧ ∀ (fuel : Nat) (s : State) (oracle : List SendResult) (m : Payload)
        (off : Nat), s.cursor = some (m, off) → m.length ≤ off →
        ∃ evs', (flushLoop (fuel + 1) s oracle).2
          = Event.writeResult 0 m m.length :: evs' := by
  refine ⟨(run_sent _ script hok).2.2, ?_⟩
  intro fuel s oracle m off hc hml
  refine ⟨(flushLoop fuel
      { s with cursor := none, bytesSent := s.bytesSent + m.length,
               msgsSent := s.msgsSent + 1 } oracle).2, ?_⟩
  rw [flushLoop_complete fuel s oracle m off hc hml]

/-- Witness for C7: a one-byte message fully sent reports size 1 with
error 0. -/
theorem c7_writeResult_size_iff_witness :
    ((1 : Nat) = ([5] : Payload).length ↔ (0 : Int) = 0)
    ∧ ∃ evs', (flushLoop (0 + 1)
        { initialState 2 with cursor := some ([], 0) } []).2
      = Event.writeResult 0 [] ([] : Payload).length :: evs' := by
  have h := c7_writeResult_size_iff 2
      [Action.write [5], Action.writableReady [SendResult.sent 1]] (by decide)
  exact ⟨h.1 0 [5] 1 (by decide), h.2 0 _ [] [] 0 rfl (by decide)⟩

/-- C8: at every reachable point of every execution, the pending-count
atomic equals the number of messages enqueued but not yet handed off to the
in-flight slot — the queue length. -/
theorem c8_remaining_eq_queue (maxM : Nat) (script : List Action) :
    (run (initialState maxM) script).1.remainingMsgs
      = (run (initialState maxM) script).1.queue.length :=
  run_remaining _ script rfl

/-- Witness for C8 after one accepted write with the queue untouched. -/
theorem c8_remaining_eq_queue_witness :
    (run (initialState 2) [Action.write [1]]).1.remainingMsgs
      = (run (initialState 2) [Action.write [1]]).1.queue.length :=
  c8_remaining_eq_queue 2 [Action.write [1]]

/-- C9: the bytes-sent, bytes-received and messages-sent counters never
decrease across any operation, and from a fresh instance bytes-sent equals
the total length of the successfully reported messages and messages-sent
their number. -/
theorem c9_counters (maxM : Nat) (script : List Action) :
    (∀ (s : State) (a : Action),
        s.bytesSent ≤ (step s a).1.bytesSent
        ∧ s.bytesReceived ≤ (step s a).1.bytesReceived
        ∧ s.msgsSent ≤ (step s a).1.msgsSent)
    ∧ (scriptOk script = true →
        (run (initialState maxM) script).1.bytesSent
            = ((sentMsgs (run (initialState maxM) script).2.1).map
                List.length).sum
          ∧ (run (initialState maxM) script).1.msgsSent
            = (sentMsgs (run (initialState maxM) script).2.1).length) := by
  refine ⟨step_counters, fun hok => ?_⟩
  obtain ⟨h1, h2, -⟩ := run_sent (initialState maxM) script hok
  exact ⟨by simpa [initialState] using h1, by simpa [initialState] using h2⟩

/-- Witness for C9: one two-byte message drained and reported. -/
theorem c9_counters_witness :
    (run (initialState 2) [Action.write [1, 2],
        Action.writableReady [SendResult.sent 2]]).1.bytesSent
      = ((sentMsgs (run (initialState 2) [Action.write [1, 2],
          Action.writableReady [SendResult.sent 2]]).2.1).map List.length).sum
    ∧ (run (initialState 2) [Action.write [1, 2],
        Action.writableReady [SendResult.sent 2]]).1.msgsSent
      = (sentMsgs (run (initialState 2) [Action.write [1, 2],
          Action.writableReady [SendResult.sent 2]]).2.1).length :=
  (c9_counters 2 [Action.write [1, 2],
      Action.writableReady [SendResult.sent 2]]).2 (by decide)

/-- C10: `write` returns a boolean indicating acceptance — acceptance holds
exactly when the payload was enqueued; when the descriptor is not open or
being opened the call throws instead of returning a boolean (the
configuration-error outcome, exactly when `canSendMessages` is false), so
the returned boolean only distinguishes acceptance from capacity-style
refusal, which leaves the state unchanged. -/
theorem c10_write_returns (s : State) (p : Payload) :
    ((write s p).1 = WriteOutcome.accepted
      ↔ (write s p).2.queue = s.queue ++ [p])
    ∧ ((write s p).1 = WriteOutcome.configError
      ↔ canSendMessages s = false)
    ∧ ((write s p).1 ≠ WriteOutcome.accepted → (write s p).2 = s) := by
  by_cases hcs : canSendMessages s = true
  · by_cases hcap : s.maxMessages ≤ s.queue.length
    · rw [write_full s p hcs hcap]
      exact ⟨by simp, by simp [hcs], by intro _; rfl⟩
    · rw [write_accept s p hcs hcap]
      exact ⟨by simp, by simp [hcs], by intro h; exact absurd rfl h⟩
  · rw [write_config s p hcs]
    have hcs' : canSendMessages s = false := by
      simpa using hcs
    exact ⟨by simp, by simp [hcs'], by intro _; rfl⟩

/-- Witness for C10 at the fresh instance and at an unset descriptor. -/
theorem c10_write_returns_witness :
    ((write (initialState 2) [7]).1 = WriteOutcome.accepted
      ↔ (write (initialState 2) [7]).2.queue
          = (initialState 2).queue ++ [[7]])
    ∧ (write { initialState 2 with fdSet := false } [7]).2
        = { initialState 2 with fdSet := false } := by
  refine ⟨(c10_write_returns (initialState 2) [7]).1, ?_⟩
  exact (c10_write_returns { initialState 2 with fdSet := false } [7]).2.2
    (by decide)

/-- C6: `requestClose` sets `closing` idempotently; when queue and cursor
are both already empty it closes the descriptor and fires disconnect
immediately with `fromPeer = false`; when one unsent message remains and the
descriptor is momentarily non-writable, no disconnect fires yet, and the
next writable-readiness event delivers the message through a successful
`writeResult` before the descriptor closes and disconnect fires. -/
theorem c6_requestClose_drain (s : State) (m : Payload) :
    ((requestClose s).1.closing = true
      ∧ requestClose (requestClose s).1 = ((requestClose s).1, []))
    ∧ (s.fdSet = true → s.queue = [] → s.cursor = none →
        requestClose s
          = ({ s with closing := true, fdSet := false, queue := [],
                      remainingMsgs := 0, cursor := none },
             [Event.disconnected false []]))
    ∧ (s.fdSet = true → s.closing = false → s.queue = [m] →
        s.cursor = none → s.writeReady = false → m ≠ [] →
        (requestClose s).2 = []
        ∧ (handleWriteReady (requestClose s).1 [SendResult.sent m.length]).2
            = [Event.writeResult 0 m m.length, Event.disconnected false []]
        ∧ (handleWriteReady (requestClose s).1
            [SendResult.sent m.length]).1.fdSet = false) := by
  refine ⟨⟨requestClose_closing s, ?_⟩, ?_, ?_⟩
  · by_cases hqc : (s.queue.isEmpty && s.cursor.isNone) = true
    · rw [requestClose_empty s hqc]
      cases hf : s.fdSet
      · rw [handleDisconnection_of_not_fdSet _ _ rfl]
        rw [requestClose_empty _ (by exact hqc)]
        rw [handleDisconnection_of_not_fdSet _ _ rfl]
      · rw [handleDisconnection_of_fdSet _ _ rfl]
        rw [requestClose_empty _ (by simpa using hqc)]
        rw [handleDisconnection_of_not_fdSet _ _ rfl]
    · rw [requestClose_busy s hqc]
      rw [requestClose_busy _ (by exact hqc)]
  · intro hfd hq hc
    have hqc : (s.queue.isEmpty && s.cursor.isNone) = true := by
      simp [hq, hc]
    rw [requestClose_empty s hqc,
        handleDisconnection_of_fdSet _ _ (by exact hfd)]
    simp [pendingPayloads, hq, hc]
  · intro hfd hcl hq hc hwr hm
    have hqc : ¬ (s.queue.isEmpty && s.cursor.isNone) = true := by
      simp [hq]
    have hfuel : flushFuel { s with closing := true }
        [SendResult.sent m.length] = 3 + 1 + 1 + 1 + 1 := by
      simp [flushFuel, hq]
    have hdrain := flushLoop_single_drain 3
        { { s with closing := true } with writeReady := true } m
        (by exact hfd) rfl (by exact hq) (by exact hc) hm
    refine ⟨by rw [requestClose_busy s hqc], ?_, ?_⟩
    · rw [requestClose_busy s hqc,
          handleWriteReady_of_fdSet _ _ (by exact hfd), hfuel, hdrain]
    · rw [requestClose_busy s hqc,
          handleWriteReady_of_fdSet _ _ (by exact hfd), hfuel, hdrain]

/-- The engine state with one pending two-byte message, used as the C6
witness input. -/
def onePendingState : State :=
  { initialState 2 with
    queue := [[9, 9]],
    remainingMsgs := 1 }

/-- Witness for C6: a fresh instance with one pending two-byte message,
closed and then drained on the next writable event. -/
theorem c6_requestClose_drain_witness :
    (requestClose (initialState 2)
      = ({ initialState 2 with
           closing := true,
           fdSet := false,
           queue := [],
           remainingMsgs := 0,
           cursor := none },
         [Event.disconnected false []]))
    ∧ (requestClose onePendingState).2 = []
    ∧ (handleWriteReady (requestClose onePendingState).1
        [SendResult.sent 2]).2
      = [Event.writeResult 0 [9, 9] 2, Event.disconnected false []] := by
  have h1 := (c6_requestClose_drain (initialState 2) [9, 9]).2.1 rfl rfl rfl
  have h2 := (c6_requestClose_drain onePendingState [9, 9]).2.2
      rfl rfl rfl rfl rfl (by decide)
  exact ⟨h1, h2.1, h2.2.1⟩

end AsyncWriterSource
